import Mathlib

/-!
Verification of the tag-collection editor (`TagInput`) and the tag search
API route of this repository.

The repository ships the editor's test suite and the API routes; the editor
component itself is exercised only through its tests, so its operations are
modelled here from the specification (each such definition carries a
`Modelled from the spec:` doc comment).  The API route
`src/src/app/api/tags/route.ts` is embedded directly from its source.
-/

namespace TagInput

/-- Modelled from the spec: trimming strips leading and trailing whitespace
(the `TagInput` component source is not in the repository snapshot; only its
test file is).  Character-list form of trimming. -/
def trimChars (l : List Char) : List Char :=
  ((l.dropWhile Char.isWhitespace).reverse.dropWhile Char.isWhitespace).reverse

/-- Modelled from the spec: string trimming used by the editor. -/
def trimStr (s : String) : String :=
  String.mk (trimChars s.toList)

/-- Modelled from the spec: "Two tags are equivalent iff their
case-insensitive, whitespace-trimmed forms match."  (§3 Data Model.) -/
def tagEquiv (a b : String) : Bool :=
  (trimChars a.toList).map Char.toLower == (trimChars b.toList).map Char.toLower

/-- Modelled from the spec: split a character list into its
whitespace-delimited words (maximal runs of non-whitespace characters).
`cur` accumulates the current word in reverse. -/
def splitWordsAux : List Char → List Char → List (List Char)
  | [], cur => if cur = [] then [] else [cur.reverse]
  | c :: rest, cur =>
    if c.isWhitespace then
      if cur = [] then splitWordsAux rest []
      else cur.reverse :: splitWordsAux rest []
    else splitWordsAux rest (c :: cur)

/-- Modelled from the spec: whitespace-delimited words of a character list. -/
def splitWords (l : List Char) : List (List Char) :=
  splitWordsAux l []

/-- Modelled from the spec: "each whitespace-delimited word has its first
character upper-cased and the remainder lower-cased" (§3). -/
def capitalize : List Char → List Char
  | [] => []
  | c :: rest => c.toUpper :: rest.map Char.toLower

/-- Modelled from the spec: join words with single spaces ("internal
whitespace is collapsed to single spaces"). -/
def joinWords : List (List Char) → List Char
  | [] => []
  | [w] => w
  | w :: ws => w ++ ' ' :: joinWords ws

/-- Modelled from the spec: canonical title-case form of a raw tag string:
leading/trailing whitespace stripped, internal whitespace collapsed to
single spaces, each word capitalized (§3). -/
def normalizeTag (raw : String) : String :=
  String.mk (joinWords ((splitWords raw.toList).map capitalize))

/-- Modelled from the spec: Tag Collection Model `add` (§4.1): normalize
the raw text; empty result or an already-present equivalent tag is a no-op
(`none`, meaning the host is not notified); otherwise append to the end.
`some` carries the new full ordered sequence reported to the host. -/
def add (tags : List String) (raw : String) : Option (List String) :=
  if normalizeTag raw = "" then none
  else if tags.any (fun x => tagEquiv x (normalizeTag raw)) then none
  else some (tags ++ [normalizeTag raw])

/-- Modelled from the spec: Tag Collection Model `remove` (§4.1): removes
the first tag equal by exact value to the argument; no-op when absent. -/
def remove (tags : List String) (tag : String) : List String :=
  tags.erase tag

/-- Modelled from the spec: Backspace with an empty buffer "removes the
last tag in the collection (tail of the ordered sequence), if any" (§4.2). -/
def onBackspaceWhenEmpty (tags : List String) : List String :=
  tags.dropLast

/-- Occurrence of `needle` as a contiguous segment of `haystack`. -/
def isInfixCharList (needle haystack : List Char) : Bool :=
  (List.range (haystack.length + 1)).any (fun i => needle.isPrefixOf (haystack.drop i))

/-- Modelled from the spec: case-insensitive substring containment used by
the Suggestion Engine's filtering (§4.3 (a)): `sub` occurs in `s` ignoring
case. -/
def containsCI (s sub : String) : Bool :=
  isInfixCharList (sub.toList.map Char.toLower) (s.toList.map Char.toLower)

/-- Modelled from the spec: Suggestion Engine filtering (§4.3): keep the
suggestions that case-insensitively contain the typed substring, then drop
those equivalent to a tag already in the collection, preserving order. -/
def filterSuggestions (sugg tags : List String) (query : String) : List String :=
  (sugg.filter (fun s => containsCI s query)).filter
    (fun s => !(tags.any (fun t => tagEquiv t s)))

/-- Modelled from the spec: `SuggestionState` (§3): candidates, optional
highlighted index, dropdown openness (source field `open`, a Lean keyword,
is rendered `isOpen`), and the request epoch used for stale-result
suppression. -/
structure SuggestionState where
  candidates : List String
  highlightedIndex : Option Nat
  isOpen : Bool
  requestEpoch : Nat
deriving DecidableEq

/-- Modelled from the spec: initial suggestion state (dropdown closed,
nothing highlighted, epoch 0). -/
def initSuggestion : SuggestionState :=
  ⟨[], none, false, 0⟩

/-- Modelled from the spec: apply a freshly filtered candidate sequence
(§4.3): `open` becomes false iff the sequence is empty, and the highlight
resets to none. The epoch is unchanged. -/
def applyCandidates (st : SuggestionState) (cs : List String) : SuggestionState :=
  ⟨cs, none, !cs.isEmpty, st.requestEpoch⟩

/-- Modelled from the spec: close the dropdown and clear candidates (§4.4
"Any transition that empties the buffer or commits a tag forces CLOSED"). -/
def closeDropdown (st : SuggestionState) : SuggestionState :=
  ⟨[], none, false, st.requestEpoch⟩

/-- Modelled from the spec: starting an async lookup increments
`requestEpoch` and tags the lookup with the new epoch value (§4.3).
Returns the new state together with the lookup's recorded tag. -/
def startLookup (st : SuggestionState) : SuggestionState × Nat :=
  (⟨st.candidates, st.highlightedIndex, st.isOpen, st.requestEpoch + 1⟩,
    st.requestEpoch + 1)

/-- Modelled from the spec: resolution of an async lookup (§4.3): the
result is applied to the candidates only if the lookup's recorded tag still
equals the current `requestEpoch`; otherwise it is silently discarded. -/
def resolveLookup (st : SuggestionState) (tag : Nat) (results : List String) :
    SuggestionState :=
  if tag = st.requestEpoch then applyCandidates st results else st

/-- Modelled from the spec: failure of an async lookup (§4.3, §7): under
the same epoch check, fall back to filtering the static list when one is
configured; with no static list the dropdown closes with no candidates.
The error is never surfaced: the handler is total and returns a state. -/
def failLookup (st : SuggestionState) (tag : Nat) (staticSugg : Option (List String))
    (tags : List String) (query : String) : SuggestionState :=
  if tag = st.requestEpoch then
    match staticSugg with
    | some l => applyCandidates st (filterSuggestions l tags query)
    | none => closeDropdown st
  else st

/-- Modelled from the spec: ArrowDown in `OPEN` (§4.4): advance the
highlight to the next index, wrapping from last to first; from none it
moves to 0. Outside `OPEN` nothing happens. -/
def arrowDown (st : SuggestionState) : SuggestionState :=
  if st.isOpen then
    match st.highlightedIndex with
    | none => ⟨st.candidates, some 0, st.isOpen, st.requestEpoch⟩
    | some i =>
      ⟨st.candidates, some ((i + 1) % st.candidates.length), st.isOpen,
        st.requestEpoch⟩
  else st

/-- Modelled from the spec: ArrowUp in `OPEN` (§4.4): move the highlight to
the previous index, wrapping from first to last. -/
def arrowUp (st : SuggestionState) : SuggestionState :=
  if st.isOpen then
    match st.highlightedIndex with
    | none =>
      ⟨st.candidates, some (st.candidates.length - 1), st.isOpen, st.requestEpoch⟩
    | some i =>
      ⟨st.candidates, some ((i + st.candidates.length - 1) % st.candidates.length),
        st.isOpen, st.requestEpoch⟩
  else st

/-- Modelled from the spec: the editor's per-event snapshot: the host's tag
sequence, the input buffer, and the suggestion state (§2, §9). -/
structure EditorState where
  tags : List String
  buffer : String
  sugg : SuggestionState
deriving DecidableEq

/-- Modelled from the spec: initial editor state with a host-supplied tag
value. -/
def initEditor (value : List String) : EditorState :=
  ⟨value, "", initSuggestion⟩

/-- Modelled from the spec: committing the buffer (§4.2): the buffer
content is committed via `add` (the host keeps its sequence when `add` is a
no-op), the buffer is cleared regardless, and the dropdown closes. -/
def commitBuffer (es : EditorState) : EditorState :=
  ⟨(add es.tags es.buffer).getD es.tags, "", closeDropdown es.sugg⟩

/-- Modelled from the spec: `onBlurOutside` (§4.2): with a non-empty buffer
commits exactly as a delimiter would; with an empty buffer it is a no-op. -/
def onBlurOutside (es : EditorState) : EditorState :=
  if es.buffer = "" then es else commitBuffer es

/-- Modelled from the spec: Enter (§4.4): in `OPEN` with a highlighted
index `i`, commits `candidates[i]` via `add`, clears the buffer and closes
the dropdown; in `OPEN(none)` or `CLOSED` it acts as a plain delimiter. -/
def enterKey (es : EditorState) : EditorState :=
  match es.sugg.isOpen, es.sugg.highlightedIndex with
  | true, some i =>
    ⟨(add es.tags (es.sugg.candidates.getD i "")).getD es.tags, "",
      closeDropdown es.sugg⟩
  | _, _ => commitBuffer es

/-- Modelled from the spec: a buffer edit in static-suggestion mode (§4.3):
a blank buffer synchronously closes the dropdown and clears candidates; a
non-blank buffer filters the static list (when configured) against the
trimmed query. -/
def onTextChange (es : EditorState) (staticSugg : Option (List String))
    (text : String) : EditorState :=
  if trimStr text = "" then ⟨es.tags, text, closeDropdown es.sugg⟩
  else
    match staticSugg with
    | some l =>
      ⟨es.tags, text, applyCandidates es.sugg (filterSuggestions l es.tags (trimStr text))⟩
    | none => ⟨es.tags, text, es.sugg⟩

/-- Modelled from the spec: ArrowDown at the editor level (§4.4). -/
def editorArrowDown (es : EditorState) : EditorState :=
  ⟨es.tags, es.buffer, arrowDown es.sugg⟩

end TagInput

namespace ApiTags

/-- Semantics of the database query issued by the `q` branch of
`GET /api/tags` (src/src/app/api/tags/route.ts): `findMany` with
`where: name contains query (mode insensitive)`, `orderBy: name asc`,
`take: 20`, i.e. filter the stored names by case-insensitive containment,
sort ascending, and keep the first 20.  `db` is the list of stored tag
names. -/
def searchTags (db : List String) (query : String) : List String :=
  (List.insertionSort (· ≤ ·)
    (db.filter (fun n => TagInput.containsCI n query))).take 20

/-- The `GET /api/tags` handler (src/src/app/api/tags/route.ts, lines
25-39) restricted to the `q` branch: when the query parameter `q` is
present and non-blank after trimming, the JSON response body is the list of
searched names; the `list=names` and admin branches are out of scope
(`none`). -/
def getTagsResponse (db : List String) (q : Option String) : Option (List String) :=
  match q with
  | some qs =>
    if TagInput.trimStr qs = "" then none
    else some (searchTags db (TagInput.trimStr qs))
  | none => none

end ApiTags

namespace TagInput

theorem tagEquiv_refl (a : String) : tagEquiv a a = true := by
  simp [tagEquiv]

theorem tagEquiv_symm {a b : String} (h : tagEquiv a b = true) : tagEquiv b a = true := by
  simp only [tagEquiv, beq_iff_eq] at *
  exact h.symm

theorem char_toNat_ofNat {n : Nat} (h : n.isValidChar) : (Char.ofNat n).toNat = n := by
  unfold Char.ofNat
  rw [dif_pos h]
  rfl

theorem char_toUpper_def (c : Char) :
    c.toUpper = if c.toNat ≥ 97 ∧ c.toNat ≤ 122 then Char.ofNat (c.toNat - 32) else c :=
  rfl

theorem char_toLower_def (c : Char) :
    c.toLower = if c.toNat ≥ 65 ∧ c.toNat ≤ 90 then Char.ofNat (c.toNat + 32) else c :=
  rfl

theorem char_toUpper_eq_self {c : Char} (h : ¬(c.toNat ≥ 97 ∧ c.toNat ≤ 122)) :
    c.toUpper = c := by
  rw [char_toUpper_def, if_neg h]

theorem char_toLower_eq_self {c : Char} (h : ¬(c.toNat ≥ 65 ∧ c.toNat ≤ 90)) :
    c.toLower = c := by
  rw [char_toLower_def, if_neg h]

theorem char_toUpper_toNat (c : Char) :
    c.toUpper.toNat = if c.toNat ≥ 97 ∧ c.toNat ≤ 122 then c.toNat - 32 else c.toNat := by
  rw [char_toUpper_def]
  split
  · next h => exact char_toNat_ofNat (Or.inl (by omega))
  · rfl

theorem char_toLower_toNat (c : Char) :
    c.toLower.toNat = if c.toNat ≥ 65 ∧ c.toNat ≤ 90 then c.toNat + 32 else c.toNat := by
  rw [char_toLower_def]
  split
  · next h => exact char_toNat_ofNat (Or.inl (by omega))
  · rfl

theorem char_toUpper_idem (c : Char) : c.toUpper.toUpper = c.toUpper := by
  by_cases h : c.toNat ≥ 97 ∧ c.toNat ≤ 122
  · have h1 : c.toUpper.toNat = c.toNat - 32 := by rw [char_toUpper_toNat, if_pos h]
    exact char_toUpper_eq_self (by rw [h1]; omega)
  · rw [char_toUpper_eq_self h]
    exact char_toUpper_eq_self h

theorem char_toLower_idem (c : Char) : c.toLower.toLower = c.toLower := by
  by_cases h : c.toNat ≥ 65 ∧ c.toNat ≤ 90
  · have h1 : c.toLower.toNat = c.toNat + 32 := by rw [char_toLower_toNat, if_pos h]
    exact char_toLower_eq_self (by rw [h1]; omega)
  · rw [char_toLower_eq_self h]
    exact char_toLower_eq_self h

theorem char_ws_toNat {c : Char} (h : c.isWhitespace = true) :
    c.toNat = 32 ∨ c.toNat = 9 ∨ c.toNat = 13 ∨ c.toNat = 10 := by
  unfold Char.isWhitespace at h
  simp only [Bool.or_eq_true, decide_eq_true_eq] at h
  rcases h with ((rfl | rfl) | rfl) | rfl <;> decide

theorem char_not_ws_toUpper {c : Char} (h : c.isWhitespace = false) :
    c.toUpper.isWhitespace = false := by
  by_cases hr : c.toNat ≥ 97 ∧ c.toNat ≤ 122
  · have h1 : c.toUpper.toNat = c.toNat - 32 := by rw [char_toUpper_toNat, if_pos hr]
    cases hws : c.toUpper.isWhitespace
    · rfl
    · have := char_ws_toNat hws
      omega
  · rw [char_toUpper_eq_self hr]
    exact h

theorem char_not_ws_toLower {c : Char} (h : c.isWhitespace = false) :
    c.toLower.isWhitespace = false := by
  by_cases hr : c.toNat ≥ 65 ∧ c.toNat ≤ 90
  · have h1 : c.toLower.toNat = c.toNat + 32 := by rw [char_toLower_toNat, if_pos hr]
    cases hws : c.toLower.isWhitespace
    · rfl
    · have := char_ws_toNat hws
      omega
  · rw [char_toLower_eq_self hr]
    exact h

theorem capitalize_idem (w : List Char) : capitalize (capitalize w) = capitalize w := by
  cases w with
  | nil => rfl
  | cons c rest =>
    simp only [capitalize, List.map_map]
    rw [char_toUpper_idem]
    congr 1
    congr 1
    funext x
    exact char_toLower_idem x

theorem splitWordsAux_word :
    ∀ (w : List Char), (∀ c ∈ w, c.isWhitespace = false) →
      ∀ (l cur : List Char), splitWordsAux (w ++ l) cur = splitWordsAux l (w.reverse ++ cur) := by
  intro w
  induction w with
  | nil => intro _ l cur; simp
  | cons c w ih =>
    intro hw l cur
    have hc : c.isWhitespace = false := hw c (by simp)
    simp only [List.cons_append, splitWordsAux, hc, Bool.false_eq_true, if_false,
      List.append_eq]
    rw [ih (fun d hd => hw d (by simp [hd])) l (c :: cur)]
    simp

theorem splitWords_joinWords :
    ∀ (ws : List (List Char)),
      (∀ w ∈ ws, w ≠ [] ∧ ∀ c ∈ w, c.isWhitespace = false) →
      splitWords (joinWords ws) = ws := by
  intro ws
  induction ws with
  | nil => intro _; rfl
  | cons w ws ih =>
    intro h
    have hw := h w (by simp)
    cases ws with
    | nil =>
      show splitWordsAux (joinWords [w]) [] = [w]
      have hj : joinWords [w] = w := rfl
      rw [hj]
      have := splitWordsAux_word w hw.2 [] []
      simp only [List.append_nil] at this
      rw [this]
      unfold splitWordsAux
      rw [if_neg (by simp [hw.1])]
      simp
    | cons w2 ws2 =>
      show splitWordsAux (joinWords (w :: w2 :: ws2)) [] = w :: w2 :: ws2
      have hj : joinWords (w :: w2 :: ws2) = w ++ ' ' :: joinWords (w2 :: ws2) := rfl
      rw [hj, splitWordsAux_word w hw.2 _ []]
      simp only [List.append_nil]
      have hsp : (' ' : Char).isWhitespace = true := by decide
      simp only [splitWordsAux, hsp, if_true]
      rw [if_neg (by simp [hw.1])]
      have ihh := ih (fun v hv => h v (by simp [hv]))
      unfold splitWords at ihh
      simp [ihh]

theorem splitWordsAux_good :
    ∀ (l cur : List Char), (∀ c ∈ cur, c.isWhitespace = false) →
      ∀ w ∈ splitWordsAux l cur, w ≠ [] ∧ ∀ c ∈ w, c.isWhitespace = false := by
  intro l
  induction l with
  | nil =>
    intro cur hcur w hw
    unfold splitWordsAux at hw
    split at hw
    · simp at hw
    · next hne =>
      simp only [List.mem_singleton] at hw
      subst hw
      refine ⟨by simpa using hne, ?_⟩
      intro c hc
      exact hcur c (List.mem_reverse.mp hc)
  | cons c l ih =>
    intro cur hcur w hw
    simp only [splitWordsAux] at hw
    by_cases hc : c.isWhitespace = true
    · rw [if_pos hc] at hw
      by_cases hcur0 : cur = []
      · rw [if_pos hcur0] at hw
        exact ih [] (by simp) w hw
      · rw [if_neg hcur0] at hw
        rcases List.mem_cons.mp hw with hw | hw
        · subst hw
          refine ⟨by simpa using hcur0, ?_⟩
          intro d hd
          exact hcur d (List.mem_reverse.mp hd)
        · exact ih [] (by simp) w hw
    · rw [if_neg hc] at hw
      refine ih (c :: cur) ?_ w hw
      intro d hd
      rcases List.mem_cons.mp hd with hd | hd
      · subst hd
        exact Bool.not_eq_true _ ▸ (by simpa using hc)
      · exact hcur d hd

theorem capitalize_good {w : List Char}
    (h : w ≠ [] ∧ ∀ c ∈ w, c.isWhitespace = false) :
    capitalize w ≠ [] ∧ ∀ c ∈ capitalize w, c.isWhitespace = false := by
  obtain ⟨h1, h2⟩ := h
  cases w with
  | nil => exact absurd rfl h1
  | cons c rest =>
    refine ⟨by simp [capitalize], ?_⟩
    intro d hd
    simp only [capitalize, List.mem_cons, List.mem_map] at hd
    rcases hd with hd | ⟨e, he, hde⟩
    · subst hd
      exact char_not_ws_toUpper (h2 c (by simp))
    · subst hde
      exact char_not_ws_toLower (h2 e (by simp [he]))

end TagInput

/-- C1 (counterexample): the claim asserts that with suggestions
`["Residential", "Commercial", "Custom"]` and existing tag `"Residential"`,
typing `"r"` yields no candidates because `"Commercial"`/`"Custom"` lack
`"r"`.  In fact `"Commercial"` does contain `"r"` case-insensitively, so
the candidate sequence is non-empty (it is `["Commercial"]`, as the
repository's own test expects). -/
theorem suggestion_filter_r_not_empty :
    TagInput.containsCI "Commercial" "r" = true
    ∧ TagInput.filterSuggestions ["Residential", "Commercial", "Custom"]
        ["Residential"] "r" ≠ [] := by
  constructor
  · decide
  · decide

/-- C1 (amended): the candidate sequence consists exactly of the supplied
suggestions that case-insensitively contain the typed substring and are not
equivalent to an existing tag, in original relative order; with suggestions
`["Residential", "Commercial", "Custom"]` and existing tag `"Residential"`,
typing `"r"` yields `["Commercial"]` and typing `"c"` yields
`["Commercial", "Custom"]`. -/
theorem suggestion_filter_spec :
    (∀ (sugg tags : List String) (q s : String),
        (s ∈ TagInput.filterSuggestions sugg tags q ↔
          s ∈ sugg ∧ TagInput.containsCI s q = true
            ∧ tags.any (fun t => TagInput.tagEquiv t s) = false)
        ∧ List.Sublist (TagInput.filterSuggestions sugg tags q) sugg)
    ∧ TagInput.filterSuggestions ["Residential", "Commercial", "Custom"]
        ["Residential"] "r" = ["Commercial"]
    ∧ TagInput.filterSuggestions ["Residential", "Commercial", "Custom"]
        ["Residential"] "c" = ["Commercial", "Custom"] := by
  refine ⟨fun sugg tags q s => ⟨?_, ?_⟩, by decide, by decide⟩
  · simp [TagInput.filterSuggestions, List.mem_filter, and_assoc]
    tauto
  · exact (List.filter_sublist _).trans (List.filter_sublist _)

/-- C2: when lookup A starts before lookup B and resolves after B, B's
results stay in `SuggestionState.candidates` and A's resolution is a
no-op; in general a resolution whose recorded tag differs from the current
`requestEpoch` never changes the state. -/
theorem stale_lookup_never_applied :
    (∀ (st : TagInput.SuggestionState) (rA rB : List String),
        TagInput.resolveLookup
            (TagInput.resolveLookup
              (TagInput.startLookup (TagInput.startLookup st).1).1
              (TagInput.startLookup (TagInput.startLookup st).1).2 rB)
            (TagInput.startLookup st).2 rA
          = TagInput.resolveLookup
              (TagInput.startLookup (TagInput.startLookup st).1).1
              (TagInput.startLookup (TagInput.startLookup st).1).2 rB
        ∧ (TagInput.resolveLookup
            (TagInput.resolveLookup
              (TagInput.startLookup (TagInput.startLookup st).1).1
              (TagInput.startLookup (TagInput.startLookup st).1).2 rB)
            (TagInput.startLookup st).2 rA).candidates = rB)
    ∧ ∀ (st : TagInput.SuggestionState) (tag : Nat) (r : List String),
        tag ≠ st.requestEpoch → TagInput.resolveLookup st tag r = st := by
  constructor
  · intro st rA rB
    simp [TagInput.startLookup, TagInput.resolveLookup, TagInput.applyCandidates]
  · intro st tag r h
    simp [TagInput.resolveLookup, h]

/-- C2 (witness): a lookup tagged with epoch 1 resolving while the current
epoch is 2 is discarded. -/
theorem stale_lookup_never_applied_witness :
    TagInput.resolveLookup ⟨["b"], none, true, 2⟩ 1 ["a"] = ⟨["b"], none, true, 2⟩ :=
  stale_lookup_never_applied.2 ⟨["b"], none, true, 2⟩ 1 ["a"] (by decide)

/-- C3: whenever a commit actually adds a tag (via delimiter or blur
outside), the appended element is the canonical title-case form of the
buffer; `"residential"` canonicalizes to `"Residential"` and `"new tag"` to
`"New Tag"`. -/
theorem commit_appends_canonical :
    (∀ es : TagInput.EditorState, TagInput.add es.tags es.buffer ≠ none →
        (TagInput.commitBuffer es).tags
            = es.tags ++ [TagInput.normalizeTag es.buffer]
          ∧ (TagInput.onBlurOutside es).tags
            = es.tags ++ [TagInput.normalizeTag es.buffer])
    ∧ TagInput.normalizeTag "residential" = "Residential"
    ∧ TagInput.normalizeTag "new tag" = "New Tag" := by
  refine ⟨fun es h => ?_, by decide, by decide⟩
  have hempty : TagInput.normalizeTag "" = "" := by decide
  have hadd : TagInput.add es.tags es.buffer
      = some (es.tags ++ [TagInput.normalizeTag es.buffer]) := by
    unfold TagInput.add at h ⊢
    split at h
    · simp at h
    · split at h
      · simp at h
      · rw [if_neg (by assumption), if_neg (by assumption)]
  have hbuf : es.buffer ≠ "" := by
    intro hb
    apply h
    rw [hb]
    simp [TagInput.add, hempty]
  constructor
  · simp [TagInput.commitBuffer, hadd]
  · simp [TagInput.onBlurOutside, hbuf, TagInput.commitBuffer, hadd]

/-- C3 (witness): committing the buffer `"new tag"` appends `"New Tag"`. -/
theorem commit_appends_canonical_witness :
    (TagInput.commitBuffer ⟨[], "new tag", TagInput.initSuggestion⟩).tags
      = [] ++ [TagInput.normalizeTag "new tag"] :=
  (commit_appends_canonical.1 ⟨[], "new tag", TagInput.initSuggestion⟩ (by decide)).1

/-- C4: after a successful commit of `s`, committing any casing/whitespace
variant of `s` again is a silent no-op (no host notification), and the
collection holds exactly one tag equivalent to the canonical form of `s`;
a whitespace-only commit is likewise a no-op. -/
theorem duplicate_commit_noop :
    (∀ (tags : List String) (s : String) (tags' : List String),
        TagInput.add tags s = some tags' →
          (∀ s' : String,
              TagInput.tagEquiv (TagInput.normalizeTag s') (TagInput.normalizeTag s) = true →
              TagInput.add tags' s' = none)
          ∧ tags'.countP (fun t => TagInput.tagEquiv t (TagInput.normalizeTag s)) = 1)
    ∧ ∀ (tags : List String) (s : String),
        TagInput.normalizeTag s = "" → TagInput.add tags s = none := by
  constructor
  · intro tags s tags' h
    have hspec : ¬(TagInput.normalizeTag s = "")
        ∧ tags.any (fun x => TagInput.tagEquiv x (TagInput.normalizeTag s)) = false
        ∧ tags' = tags ++ [TagInput.normalizeTag s] := by
      unfold TagInput.add at h
      split at h
      · simp at h
      · rename_i h1
        split at h
        · simp at h
        · rename_i h2
          exact ⟨h1, by simpa using h2, by simpa using h.symm⟩
    obtain ⟨hne, hany, htags⟩ := hspec
    constructor
    · intro s' hs'
      unfold TagInput.add
      split
      · rfl
      · have hmem : TagInput.normalizeTag s ∈ tags' := by
          rw [htags]; simp
        have : tags'.any (fun x => TagInput.tagEquiv x (TagInput.normalizeTag s')) = true := by
          rw [List.any_eq_true]
          exact ⟨TagInput.normalizeTag s, hmem, TagInput.tagEquiv_symm hs'⟩
        simp [this]
    · rw [htags, List.countP_append]
      have h0 : tags.countP (fun t => TagInput.tagEquiv t (TagInput.normalizeTag s)) = 0 := by
        rw [List.countP_eq_zero]
        intro a ha
        have := List.any_eq_false.mp (by simpa using hany) a ha
        simpa using this
      have h1 : ([TagInput.normalizeTag s]).countP
          (fun t => TagInput.tagEquiv t (TagInput.normalizeTag s)) = 1 := by
        simp [List.countP_cons, TagInput.tagEquiv_refl]
      omega
  · intro tags s h
    simp [TagInput.add, h]

/-- C4 (witness): with `"Residential"` already committed, committing
`"residential"` again is a no-op, and the collection holds exactly one
equivalent tag. -/
theorem duplicate_commit_noop_witness :
    TagInput.add ["Residential"] "residential" = none
    ∧ (["Residential"] : List String).countP
        (fun t => TagInput.tagEquiv t (TagInput.normalizeTag "Residential")) = 1 :=
  ⟨(duplicate_commit_noop.1 [] "Residential" ["Residential"] (by decide)).1
      "residential" (by decide),
    (duplicate_commit_noop.1 [] "Residential" ["Residential"] (by decide)).2⟩

/-- C5: in the open dropdown, ArrowDown advances the highlight (none to 0,
wrapping last to first), ArrowUp moves it back (wrapping first to last),
and Enter with index `i` highlighted commits `candidates[i]`, clears the
buffer and closes the dropdown; typing `"s"` over suggestions
`["First", "Second", "Third"]` then ArrowDown twice then Enter adds
`"Second"`. -/
theorem keyboard_highlight_and_enter :
    (∀ st : TagInput.SuggestionState, st.isOpen = true → st.highlightedIndex = none →
        (TagInput.arrowDown st).highlightedIndex = some 0)
    ∧ (∀ (st : TagInput.SuggestionState) (i : Nat), st.isOpen = true →
        st.highlightedIndex = some i → i + 1 < st.candidates.length →
        (TagInput.arrowDown st).highlightedIndex = some (i + 1))
    ∧ (∀ st : TagInput.SuggestionState, st.isOpen = true →
        st.highlightedIndex = some (st.candidates.length - 1) → st.candidates ≠ [] →
        (TagInput.arrowDown st).highlightedIndex = some 0)
    ∧ (∀ (st : TagInput.SuggestionState) (i : Nat), st.isOpen = true →
        st.highlightedIndex = some (i + 1) → i + 1 < st.candidates.length →
        (TagInput.arrowUp st).highlightedIndex = some i)
    ∧ (∀ st : TagInput.SuggestionState, st.isOpen = true →
        st.highlightedIndex = some 0 → st.candidates ≠ [] →
        (TagInput.arrowUp st).highlightedIndex = some (st.candidates.length - 1))
    ∧ (∀ (es : TagInput.EditorState) (i : Nat), es.sugg.isOpen = true →
        es.sugg.highlightedIndex = some i →
        (TagInput.enterKey es).tags
            = (TagInput.add es.tags (es.sugg.candidates.getD i "")).getD es.tags
          ∧ (TagInput.enterKey es).buffer = ""
          ∧ (TagInput.enterKey es).sugg.isOpen = false)
    ∧ (TagInput.enterKey (TagInput.editorArrowDown (TagInput.editorArrowDown
        (TagInput.onTextChange (TagInput.initEditor [])
          (some ["First", "Second", "Third"]) "s")))).tags = ["Second"] := by
  refine ⟨?_, ?_, ?_, ?_, ?_, ?_, by decide⟩
  · intro st h1 h2
    simp [TagInput.arrowDown, h1, h2]
  · intro st i h1 h2 h3
    simp [TagInput.arrowDown, h1, h2]
    exact Nat.mod_eq_of_lt h3
  · intro st h1 h2 h3
    have hlen : 0 < st.candidates.length := List.length_pos.mpr h3
    have e : st.candidates.length - 1 + 1 = st.candidates.length := by omega
    simp [TagInput.arrowDown, h1, h2, e]
  · intro st i h1 h2 h3
    have e : i + 1 + st.candidates.length - 1 = i + st.candidates.length := by omega
    simp [TagInput.arrowUp, h1, h2, e, Nat.add_mod_right]
    exact Nat.mod_eq_of_lt (by omega)
  · intro st h1 h2 h3
    have hlen : 0 < st.candidates.length := List.length_pos.mpr h3
    simp [TagInput.arrowUp, h1, h2]
  · intro es i h1 h2
    simp [TagInput.enterKey, h1, h2, TagInput.closeDropdown]

/-- C5 (witness): with candidates `["First", "Second"]` and nothing
highlighted, ArrowDown highlights index 0. -/
theorem keyboard_highlight_and_enter_witness :
    (TagInput.arrowDown ⟨["First", "Second"], none, true, 0⟩).highlightedIndex = some 0 :=
  keyboard_highlight_and_enter.1 ⟨["First", "Second"], none, true, 0⟩ rfl rfl

/-- C6: a failed lookup is handled locally: under the current epoch the
engine filters the static list for the same query when one is configured,
and closes the dropdown with no candidates otherwise; a stale failure
changes nothing.  The handler is a total function into states, so no error
reaches the host. -/
theorem fetch_failure_fallback :
    (∀ (st : TagInput.SuggestionState) (l tags : List String) (q : String),
        (TagInput.failLookup st st.requestEpoch (some l) tags q).candidates
            = TagInput.filterSuggestions l tags q
          ∧ (TagInput.failLookup st st.requestEpoch none tags q).isOpen = false
          ∧ (TagInput.failLookup st st.requestEpoch none tags q).candidates = [])
    ∧ ∀ (st : TagInput.SuggestionState) (tag : Nat) (sl : Option (List String))
        (tags : List String) (q : String),
        tag ≠ st.requestEpoch → TagInput.failLookup st tag sl tags q = st := by
  constructor
  · intro st l tags q
    refine ⟨?_, ?_, ?_⟩ <;>
      simp [TagInput.failLookup, TagInput.applyCandidates, TagInput.closeDropdown]
  · intro st tag sl tags q h
    simp [TagInput.failLookup, h]

/-- C6 (witness): a stale failure (tag 0, current epoch 1) leaves the
state unchanged. -/
theorem fetch_failure_fallback_witness :
    TagInput.failLookup ⟨[], none, false, 1⟩ 0 (some ["Fallback"]) [] "fall"
      = ⟨[], none, false, 1⟩ :=
  fetch_failure_fallback.2 ⟨[], none, false, 1⟩ 0 (some ["Fallback"]) [] "fall" (by decide)

/-- C7: Backspace on an empty buffer removes exactly the last element of
the tag sequence; on an empty collection it is a no-op; collection
`["First", "Last"]` becomes `["First"]`. -/
theorem backspace_empty_removes_last :
    (∀ (ts : List String) (t : String), TagInput.onBackspaceWhenEmpty (ts ++ [t]) = ts)
    ∧ TagInput.onBackspaceWhenEmpty ([] : List String) = []
    ∧ TagInput.onBackspaceWhenEmpty ["First", "Last"] = ["First"] := by
  refine ⟨fun ts t => ?_, rfl, by decide⟩
  simp [TagInput.onBackspaceWhenEmpty]

/-- C8: `remove` deletes the first element equal by value to its argument,
preserving the relative order of all other elements, and is a no-op when no
element matches. -/
theorem remove_first_match :
    (∀ (l1 l2 : List String) (t : String), t ∉ l1 →
        TagInput.remove (l1 ++ t :: l2) t = l1 ++ l2)
    ∧ ∀ (tags : List String) (t : String), t ∉ tags → TagInput.remove tags t = tags := by
  constructor
  · intro l1 l2 t h
    unfold TagInput.remove
    rw [List.erase_append_right _ h, List.erase_cons_head]
  · intro tags t h
    exact List.erase_of_not_mem h

/-- C8 (witness): removing `"A"` from `["A", "B"]` yields `["B"]`, and
removing the absent `"A"` from `["B"]` is a no-op. -/
theorem remove_first_match_witness :
    TagInput.remove ["A", "B"] "A" = ["B"]
    ∧ TagInput.remove ["B"] "A" = ["B"] :=
  ⟨remove_first_match.1 [] ["B"] "A" (by simp),
    remove_first_match.2 ["B"] "A" (by simp)⟩

/-- C10: for a `GET /api/tags` request whose `q` parameter is present and
non-blank after trimming, the response is a list of at most 20 names, each
case-insensitively containing the trimmed query, sorted ascending. -/
theorem tags_search_response :
    ∀ (db : List String) (q : String) (res : List String),
      ApiTags.getTagsResponse db (some q) = some res →
        res.length ≤ 20
        ∧ (∀ n ∈ res, TagInput.containsCI n (TagInput.trimStr q) = true)
        ∧ List.Sorted (· ≤ ·) res := by
  intro db q res h
  have hres : res = ApiTags.searchTags db (TagInput.trimStr q) := by
    unfold ApiTags.getTagsResponse at h
    by_cases hq : TagInput.trimStr q = ""
    · simp [hq] at h
    · simp [hq] at h
      exact h.symm
  subst hres
  unfold ApiTags.searchTags
  refine ⟨?_, ?_, ?_⟩
  · exact List.length_take_le 20 _
  · intro n hn
    have hn' := List.mem_of_mem_take hn
    rw [List.mem_insertionSort] at hn'
    exact (List.mem_filter.mp hn').2
  · exact List.Pairwise.take (List.sorted_insertionSort _ _)

/-- C9: tag normalization is idempotent: applying it twice equals applying
it once, so normalizing an already-canonical tag returns the same string. -/
theorem normalizeTag_idempotent :
    ∀ s : String, TagInput.normalizeTag (TagInput.normalizeTag s) = TagInput.normalizeTag s := by
  intro s
  unfold TagInput.normalizeTag
  have hto : ∀ l : List Char, (String.mk l).toList = l := fun _ => rfl
  rw [hto]
  have hgood : ∀ w ∈ (TagInput.splitWords s.toList).map TagInput.capitalize,
      w ≠ [] ∧ ∀ c ∈ w, c.isWhitespace = false := by
    intro w hw
    simp only [List.mem_map] at hw
    obtain ⟨v, hv, rfl⟩ := hw
    exact TagInput.capitalize_good
      (TagInput.splitWordsAux_good s.toList [] (by simp) v hv)
  rw [TagInput.splitWords_joinWords _ hgood, List.map_map]
  have hmap : List.map (TagInput.capitalize ∘ TagInput.capitalize)
        (TagInput.splitWords s.toList)
      = List.map TagInput.capitalize (TagInput.splitWords s.toList) :=
    List.map_congr_left (fun a _ => TagInput.capitalize_idem a)
  rw [hmap]

/-- C10 (witness): searching the store `["Alpha"]` for `"a"` returns
`["Alpha"]`, which is within the size bound and sorted. -/
theorem tags_search_response_witness :
    (["Alpha"] : List String).length ≤ 20
    ∧ List.Sorted (· ≤ · : String → String → Prop) ["Alpha"] :=
  ⟨(tags_search_response ["Alpha"] "a" ["Alpha"] (by decide)).1,
    (tags_search_response ["Alpha"] "a" ["Alpha"] (by decide)).2.2⟩
